import Mathlib

/-!
Verification of the ECA temperature-analysis program (src/temperature.py).

The program is embedded shallowly: Python lists become Lean lists, the two
parallel series are a list of 8-character date strings and a list of
temperatures, temperatures are rationals (the program only ever divides an
integer by 10 and compares the results against integer thresholds, so the
rational model decides every comparison exactly as the float model does),
and fallible operations (list indexing, dict lookup, int parsing, datetime
construction) return Except values.
-/

/-- Runtime errors of the embedded program, abstracting the Python
exceptions the source can raise: IndexError from list indexing, KeyError
from dict lookup, ValueError from int parsing (carrying the offending
literal), and ValueError from datetime construction.  The constructor
emptySeriesError comes from the error taxonomy of the specification
(an explicit empty-series precondition error); the source code never
produces it, and it is declared so that statements can distinguish it
from an out-of-bounds IndexError. -/
inductive Err : Type where
  | indexError : Err
  | keyError : String → Err
  | valueError : String → Err
  | invalidDate : Err
  | emptySeriesError : Err
deriving DecidableEq, Repr

/-- ASCII whitespace characters stripped by Python str.strip and int(). -/
def isPySpace (c : Char) : Bool :=
  c = ' ' || c = '\t' || c = '\n' || c = '\x0d' || c = '\x0b' || c = '\x0c'

/-- ASCII decimal digit test. -/
def isAsciiDigit (c : Char) : Bool :=
  '0' ≤ c && c ≤ '9'

/-- Python str.strip with no argument: remove leading and trailing
whitespace. -/
def pyStrip (s : String) : String :=
  ⟨((s.data.dropWhile isPySpace).reverse.dropWhile isPySpace).reverse⟩

/-- Python line.rstrip applied with a newline argument: remove all trailing
newline characters. -/
def pyRstripNl (s : String) : String :=
  ⟨(s.data.reverse.dropWhile (fun c => c = '\n')).reverse⟩

/-- Python slicing s[a:b] for nonnegative bounds: out-of-range bounds clamp
instead of failing. -/
def pyslice (s : String) (a b : Nat) : String :=
  ⟨(s.data.drop a).take (b - a)⟩

/-- Lexicographic prefix test on character lists, first argument is the
pattern. -/
def leadsWith : List Char → List Char → Bool
  | [], _ => true
  | _ :: _, [] => false
  | a :: as, b :: bs => a = b && leadsWith as bs

/-- Python str.startswith. -/
def pyStartsWith (s pat : String) : Bool :=
  leadsWith pat.data s.data

/-- Lexicographic comparison of character lists by code point, the order
Python uses to sort strings. -/
def charsLe : List Char → List Char → Bool
  | [], _ => true
  | _ :: _, [] => false
  | a :: as, b :: bs =>
    if a.toNat < b.toNat then true
    else if b.toNat < a.toNat then false
    else charsLe as bs

/-- Python string comparison a <= b. -/
def strLeB (a b : String) : Bool :=
  charsLe a.data b.data

/-- Digit-run validity for Python int(): nonempty, starts and ends with a
digit, and every underscore sits between two digits. -/
def digitsOk : List Char → Bool
  | [] => false
  | [c] => isAsciiDigit c
  | c :: d :: rest =>
    isAsciiDigit c &&
      (if d = '_' then
        match rest with
        | [] => false
        | e :: rest2 => isAsciiDigit e && digitsOk (e :: rest2)
      else digitsOk (d :: rest))

/-- Numeric value of a list of ASCII digits. -/
def digitsVal : List Char → Nat
  | [] => 0
  | c :: cs => (c.toNat - 48) * 10 ^ cs.length + digitsVal cs

/-- Sign handling of Python int(): a leading plus or minus is consumed,
anything else leaves the digits untouched. -/
def pySign : List Char → Int × List Char
  | [] => (1, [])
  | c :: rest =>
    if c = '+' then (1, rest)
    else if c = '-' then (-1, rest)
    else (1, c :: rest)

/-- Core of Python int() on an already-stripped character sequence: an
optional sign followed by digits (underscores allowed between digits).
On failure the error carries the original literal, as the Python
ValueError message does. -/
def pyIntOfChars (orig : String) (cs : List Char) : Except Err Int :=
  if digitsOk (pySign cs).2 then
    .ok ((pySign cs).1 * (digitsVal ((pySign cs).2.filter (fun c => c ≠ '_')) : Int))
  else .error (.valueError orig)

/-- Python int() on a string: strips whitespace, then parses an optionally
signed digit run.  Unicode digits are not modelled; the data in this
domain is ASCII. -/
def pyInt (s : String) : Except Err Int :=
  pyIntOfChars s (pyStrip s).data

/-- Python list indexing l[i] for an int index: nonnegative indexes from
the front, negative indexes from the back, anything out of range is an
IndexError. -/
def pyGetI {α : Type} (l : List α) (i : Int) : Except Err α :=
  if 0 ≤ i then
    match l.get? i.toNat with
    | some a => .ok a
    | none => .error .indexError
  else if (-i).toNat ≤ l.length then
    match l.get? (l.length - (-i).toNat) with
    | some a => .ok a
    | none => .error .indexError
  else .error .indexError

/-- Python dict lookup d[k] on an insertion-ordered association list:
KeyError when the key is absent. -/
def dictGet : List (String × Nat) → String → Except Err Nat
  | [], k => .error (.keyError k)
  | p :: rest, k => if p.1 = k then .ok p.2 else dictGet rest k

/-- Python dict assignment d[k] = v on an insertion-ordered association
list: update in place when the key exists, append otherwise. -/
def dictSet : List (String × Nat) → String → Nat → List (String × Nat)
  | [], k, v => [(k, v)]
  | p :: rest, k, v => if p.1 = k then (k, v) :: rest else p :: dictSet rest k v

/-- Sorted insertion of a string into a list, by Python string order. -/
def insertStr (a : String) : List String → List String
  | [] => [a]
  | b :: l => if strLeB a b then a :: b :: l else b :: insertStr a l

/-- Insertion sort by Python string order; models list.sort(), whose
result on a duplicate-free list this matches exactly. -/
def sortStr : List String → List String
  | [] => []
  | a :: l => insertStr a (sortStr l)

/-- Sequencing of fallible computations: propagate the first error. -/
def exbind {α β : Type} (x : Except Err α) (f : α → Except Err β) : Except Err β :=
  match x with
  | .ok a => f a
  | .error e => .error e

/-- Run a fallible loop body over a list of items, threading the state and
stopping at the first error; models a Python for-loop whose body may
raise. -/
def foldE {σ α : Type} (f : σ → α → Except Err σ) : σ → List α → Except Err σ
  | s, [] => .ok s
  | s, a :: rest =>
    match f s a with
    | .ok s2 => foldE f s2 rest
    | .error e => .error e

/-- One line of the read_data loop: before the header the state only
watches for a line whose stripped content starts with STAID; after it,
every line is a fixed-column record whose date is chars 14 to 21 and whose
temperature is chars 23 to 27, parsed as an int and divided by 10.
The source appends the date before parsing the temperature; since a parse
failure aborts the whole call, returning the error directly is
observationally identical. -/
def readStep (st : Bool × List String × List ℚ) (rawline : String) :
    Except Err (Bool × List String × List ℚ) :=
  let line := pyRstripNl rawline
  if st.1 = false then
    if pyStartsWith (pyStrip line) "STAID" then .ok (true, st.2.1, st.2.2)
    else .ok st
  else
    exbind (pyInt (pyStrip (pyslice line 23 28))) (fun t =>
      .ok (true, st.2.1 ++ [pyslice line 14 22], st.2.2 ++ [(t : ℚ) / 10]))

/-- read_data from src/temperature.py, with the out-of-scope file access
replaced by the list of raw lines it yields. -/
def read_data (lines : List String) : Except Err (List String × List ℚ) :=
  exbind (foldE readStep (false, [], []) lines) (fun st => .ok (st.2.1, st.2.2))

/-- Loop body of get_highest_temp: replace the running extremum on a
strictly greater temperature, reading the date only then. -/
def hotStep (list_of_dates : List String) (list_of_temperatures : List ℚ)
    (acc : String × ℚ) (i : Nat) : Except Err (String × ℚ) :=
  exbind (pyGetI list_of_temperatures (i : Int)) (fun t =>
    if acc.2 < t then
      exbind (pyGetI list_of_dates (i : Int)) (fun d => .ok (d, t))
    else .ok acc)

/-- get_highest_temp from src/temperature.py: seed with element 0 of both
lists, then scan all indexes, replacing on strict inequality. -/
def get_highest_temp (list_of_dates : List String) (list_of_temperatures : List ℚ) :
    Except Err (String × ℚ) :=
  exbind (pyGetI list_of_temperatures 0) (fun t0 =>
    exbind (pyGetI list_of_dates 0) (fun d0 =>
      foldE (hotStep list_of_dates list_of_temperatures) (d0, t0)
        (List.range list_of_temperatures.length)))

/-- Loop body of get_lowest_temp: replace the running extremum on a
strictly smaller temperature. -/
def coldStep (list_of_dates : List String) (list_of_temperatures : List ℚ)
    (acc : String × ℚ) (i : Nat) : Except Err (String × ℚ) :=
  exbind (pyGetI list_of_temperatures (i : Int)) (fun t =>
    if t < acc.2 then
      exbind (pyGetI list_of_dates (i : Int)) (fun d => .ok (d, t))
    else .ok acc)

/-- get_lowest_temp from src/temperature.py. -/
def get_lowest_temp (list_of_dates : List String) (list_of_temperatures : List ℚ) :
    Except Err (String × ℚ) :=
  exbind (pyGetI list_of_temperatures 0) (fun t0 =>
    exbind (pyGetI list_of_dates 0) (fun d0 =>
      foldE (coldStep list_of_dates list_of_temperatures) (d0, t0)
        (List.range list_of_temperatures.length)))

/-- Full English month names indexed 1 to 12, as produced by
strftime with the month-name directive. -/
def monthName : Nat → String
  | 1 => "January"
  | 2 => "February"
  | 3 => "March"
  | 4 => "April"
  | 5 => "May"
  | 6 => "June"
  | 7 => "July"
  | 8 => "August"
  | 9 => "September"
  | 10 => "October"
  | 11 => "November"
  | 12 => "December"
  | _ => ""

/-- Gregorian leap-year rule used by the datetime module. -/
def isLeapYear (y : Int) : Bool :=
  y % 4 = 0 && (y % 100 ≠ 0 || y % 400 = 0)

/-- Days in a month of a given year, as validated by the datetime
constructor. -/
def daysInMonth (y m : Int) : Int :=
  if m = 2 then (if isLeapYear y then 29 else 28)
  else if m = 4 ∨ m = 6 ∨ m = 9 ∨ m = 11 then 30
  else 31

/-- Month and day validation of the datetime constructor, together with
the lower year bound: a positive year, a month from 1 to 12, and a day
from 1 to the length of that month. -/
def calendarOk (y m d : Int) : Bool :=
  1 ≤ y && 1 ≤ m && m ≤ 12 && 1 ≤ d && d ≤ daysInMonth y m

/-- get_friendly_date from src/temperature.py: parse the three fields of
a yyyymmdd string with int(), validate them through the datetime
constructor (which raises ValueError on an invalid calendar date), and
render day, full month name and year separated by spaces. -/
def get_friendly_date (date : String) : Except Err String :=
  exbind (pyInt (pyslice date 0 4)) (fun y =>
    exbind (pyInt (pyslice date 4 6)) (fun m =>
      exbind (pyInt (pyslice date 6 8)) (fun d =>
        if y ≤ 9999 && calendarOk y m d then
          .ok (toString d ++ " " ++ monthName m.toNat ++ " " ++ toString y)
        else .error .invalidDate)))

/-- Loop state of get_longest_freezing: current run length, best recorded
run length, recorded end date, and whether the previous day was
freezing. -/
structure FreezeState : Type where
  uninterrupted_period : Nat
  longest_uninterrupted_period : Nat
  last_day : String
  was_freezing : Bool
deriving DecidableEq, Repr

/-- One day of the get_longest_freezing scan, from src/temperature.py:
below zero extends or opens a run; at or above zero while freezing closes
the run, recording its length and the previous date when it beats the
best so far. -/
def freezeStep (max_dates : List String) (max_temps : List ℚ)
    (s : FreezeState) (i : Nat) : Except Err FreezeState :=
  exbind (pyGetI max_temps (i : Int)) (fun t =>
    if t < 0 then
      if s.was_freezing then
        .ok { s with uninterrupted_period := s.uninterrupted_period + 1 }
      else
        .ok { s with was_freezing := true, uninterrupted_period := 1 }
    else if s.was_freezing then
      if s.longest_uninterrupted_period < s.uninterrupted_period then
        exbind (pyGetI max_dates ((i : Int) - 1)) (fun d =>
          .ok { s with longest_uninterrupted_period := s.uninterrupted_period,
                       last_day := d, was_freezing := false })
      else .ok { s with was_freezing := false }
    else .ok s)

/-- State of the get_longest_freezing scan after its first k iterations. -/
def freezeExec (max_dates : List String) (max_temps : List ℚ) (k : Nat) :
    Except Err FreezeState :=
  foldE (freezeStep max_dates max_temps) ⟨0, 0, "", false⟩ (List.range k)

/-- get_longest_freezing from src/temperature.py: scan all indexes of the
date list and return the recorded best run length and its end date. -/
def get_longest_freezing (max_dates : List String) (max_temps : List ℚ) :
    Except Err (Nat × String) :=
  exbind (freezeExec max_dates max_temps max_dates.length)
    (fun s => .ok (s.longest_uninterrupted_period, s.last_day))

/-- One date of the get_unique_years scan: when the 4-character year is
new, append it and re-sort the accumulated list. -/
def guyStep (years : List String) (date : String) : List String :=
  let year := pyslice date 0 4
  if year ∈ years then years else sortStr (years ++ [year])

/-- get_unique_years from src/temperature.py. -/
def get_unique_years (list_of_dates : List String) : List String :=
  list_of_dates.foldl guyStep []

/-- The dict of get_days_higher_per_year pre-populated with every year
mapped to 0. -/
def initDict (years : List String) : List (String × Nat) :=
  years.foldl (fun d year => dictSet d year 0) []

/-- Loop body of get_days_higher_per_year: when the temperature at index i
reaches the threshold, look up the year of the date at index i (a KeyError
if absent) and increment its count. -/
def gdhStep (list_of_dates : List String) (list_of_temperatures : List ℚ)
    (min_temp : ℚ) (d : List (String × Nat)) (i : Nat) :
    Except Err (List (String × Nat)) :=
  exbind (pyGetI list_of_temperatures (i : Int)) (fun t =>
    if min_temp ≤ t then
      exbind (pyGetI list_of_dates (i : Int)) (fun date =>
        let year := pyslice date 0 4
        exbind (dictGet d year) (fun v => .ok (dictSet d year (v + 1))))
    else .ok d)

/-- get_days_higher_per_year from src/temperature.py. -/
def get_days_higher_per_year (list_of_dates : List String)
    (list_of_temperatures : List ℚ) (min_temp : ℚ) :
    Except Err (List (String × Nat)) :=
  foldE (gdhStep list_of_dates list_of_temperatures min_temp)
    (initDict (get_unique_years list_of_dates))
    (List.range list_of_temperatures.length)

/-- get_summer_days_per_year from src/temperature.py: threshold 25. -/
def get_summer_days_per_year (list_of_dates : List String)
    (list_of_temperatures : List ℚ) : Except Err (List (String × Nat)) :=
  get_days_higher_per_year list_of_dates list_of_temperatures 25

/-- get_tropical_days_per_year from src/temperature.py: threshold 30. -/
def get_tropical_days_per_year (list_of_dates : List String)
    (list_of_temperatures : List ℚ) : Except Err (List (String × Nat)) :=
  get_days_higher_per_year list_of_dates list_of_temperatures 30

/-- The summer-excluding-tropical computation of the report driver in
src/temperature.py: extract the two per-year count lists in dict order,
then for each VALUE i of the summer list append summer_list[i] minus
tropical_list[i], using the count itself as a positional index. -/
def summer_list_excl_tropical (max_dates : List String) (max_temps : List ℚ) :
    Except Err (List Int) :=
  exbind (get_summer_days_per_year max_dates max_temps) (fun summer_days =>
    exbind (get_tropical_days_per_year max_dates max_temps) (fun tropical_days =>
      let summer_list : List Int := summer_days.map (fun p => (p.2 : Int))
      let tropical_list : List Int := tropical_days.map (fun p => (p.2 : Int))
      foldE
        (fun acc i =>
          exbind (pyGetI summer_list i) (fun a =>
            exbind (pyGetI tropical_list i) (fun b => .ok (acc ++ [a - b]))))
        [] summer_list))

/-- Modelled from the spec: the intended by-year subtraction of the report
driver (section 4.5 and section 9 of the spec), pairing each summer count
with the tropical count of the same year key instead of using counts as
positions. -/
def byYearSummerExclTropical (max_dates : List String) (max_temps : List ℚ) :
    Except Err (List Int) :=
  exbind (get_summer_days_per_year max_dates max_temps) (fun summer_days =>
    exbind (get_tropical_days_per_year max_dates max_temps) (fun tropical_days =>
      foldE
        (fun acc p =>
          exbind (dictGet tropical_days p.1)
            (fun b => .ok (acc ++ [(p.2 : Int) - (b : Int)])))
        [] summer_days))

/-- Modelled from the spec: an 8-character string forms a valid calendar
date when all characters are digits and the year, month and day fields
pass the calendar validation. -/
def specValidYYYYMMDD (s : String) : Bool :=
  s.length = 8 && s.data.all isAsciiDigit &&
    calendarOk (digitsVal (s.data.take 4)) (digitsVal ((s.data.drop 4).take 2))
      (digitsVal (s.data.drop 6))

/-- Number of indexes below k whose date has year y and whose temperature
reaches the threshold. -/
def countQ (dates : List String) (temps : List ℚ) (t : ℚ) (y : String) (k : Nat) : Nat :=
  (List.range k).countP
    (fun i => decide (pyslice (dates.getD i "") 0 4 = y) && decide (t ≤ temps.getD i 0))

deriving instance DecidableEq for Except

attribute [local semireducible] Rat.ofScientific Rat.mul Rat.inv Rat.add Rat.sub

/-! ## Generic lemmas about the loop combinator and the Python helpers -/

/-- Sequencing after a success applies the continuation. -/
theorem exbind_ok {α β : Type} (a : α) (f : α → Except Err β) :
    exbind (.ok a) f = f a := rfl

/-- Sequencing after an error propagates it. -/
theorem exbind_error {α β : Type} (e : Err) (f : α → Except Err β) :
    exbind (.error e) f = .error e := rfl

/-- Splitting a fallible loop at a list append. -/
theorem foldE_append {σ α : Type} (f : σ → α → Except Err σ) (s : σ) (l1 l2 : List α) :
    foldE f s (l1 ++ l2) = match foldE f s l1 with
      | .ok s2 => foldE f s2 l2
      | .error e => .error e := by
  induction l1 generalizing s with
  | nil => simp [foldE]
  | cons a rest ih =>
    simp only [List.cons_append, foldE]
    cases f s a with
    | ok s2 => exact ih s2
    | error e => rfl

/-- Indexing with an in-range natural index succeeds and returns the
element. -/
theorem pyGetI_ok {α : Type} (l : List α) (i : Nat) (d : α) (h : i < l.length) :
    pyGetI l (i : Int) = .ok (l.getD i d) := by
  have h1 : l[i]? = some l[i] := List.getElem?_eq_getElem h
  have h2 : l.get? i = some l[i] := by
    rw [List.get?_eq_getElem?]
    exact h1
  unfold pyGetI
  rw [if_pos (Int.natCast_nonneg i)]
  simp [Int.toNat_natCast, h2, List.getD_eq_getElem?_getD, h1]

/-! ## Dict lemmas -/

/-- Looking up the key just assigned returns the assigned value. -/
theorem dictGet_dictSet_self (d : List (String × Nat)) (k : String) (v : Nat) :
    dictGet (dictSet d k v) k = .ok v := by
  induction d with
  | nil => simp [dictSet, dictGet]
  | cons p rest ih =>
    by_cases h : p.1 = k
    · simp [dictSet, dictGet, h]
    · simp [dictSet, dictGet, h, ih]

/-- Assignment to one key leaves lookups of other keys unchanged. -/
theorem dictGet_dictSet_ne (d : List (String × Nat)) (k k2 : String) (v : Nat)
    (h : k2 ≠ k) : dictGet (dictSet d k v) k2 = dictGet d k2 := by
  have hk2 : ¬ (k = k2) := fun hh => h hh.symm
  induction d with
  | nil => simp [dictSet, dictGet, hk2]
  | cons p rest ih =>
    by_cases hp : p.1 = k
    · have hp2 : ¬ (p.1 = k2) := by
        rw [hp]
        exact hk2
      simp [dictSet, hp, dictGet, hk2, hp2]
    · by_cases hp2 : p.1 = k2
      · simp [dictSet, dictGet, hp, hp2, h]
      · simp [dictSet, dictGet, hp, hp2, ih]

/-- Assignment to a present key does not change the key sequence. -/
theorem dictSet_map_fst_mem (d : List (String × Nat)) (k : String) (v : Nat)
    (h : k ∈ d.map Prod.fst) : (dictSet d k v).map Prod.fst = d.map Prod.fst := by
  induction d with
  | nil => simp at h
  | cons p rest ih =>
    by_cases hp : p.1 = k
    · simp [dictSet, hp]
    · have h2 : k ∈ rest.map Prod.fst := by
        simp only [List.map_cons, List.mem_cons] at h
        rcases h with h | h
        · exact absurd h.symm hp
        · exact h
      simp [dictSet, hp, ih h2]

/-- Assignment to an absent key appends it to the key sequence. -/
theorem dictSet_map_fst_not_mem (d : List (String × Nat)) (k : String) (v : Nat)
    (h : k ∉ d.map Prod.fst) :
    (dictSet d k v).map Prod.fst = d.map Prod.fst ++ [k] := by
  induction d with
  | nil => simp [dictSet]
  | cons p rest ih =>
    have hp : p.1 ≠ k := by
      intro hh
      exact h (by simp [hh])
    have h2 : k ∉ rest.map Prod.fst := by
      intro hh
      exact h (by simp [hh])
    simp [dictSet, hp, ih h2]

/-- With duplicate-free keys, membership of a pair determines the lookup
result. -/
theorem dictGet_of_mem_nodup (d : List (String × Nat)) (k : String) (v : Nat)
    (hnd : (d.map Prod.fst).Nodup) (h : (k, v) ∈ d) : dictGet d k = .ok v := by
  induction d with
  | nil => simp at h
  | cons p rest ih =>
    rcases List.mem_cons.mp h with h1 | h1
    · simp [dictGet, ← h1]
    · have hp : p.1 ≠ k := by
        intro hh
        have : k ∈ rest.map Prod.fst := by
          exact List.mem_map.mpr ⟨(k, v), h1, rfl⟩
        rw [List.map_cons, List.nodup_cons] at hnd
        exact hnd.1 (hh ▸ this)
      have hnd2 : (rest.map Prod.fst).Nodup := by
        rw [List.map_cons, List.nodup_cons] at hnd
        exact hnd.2
      simp [dictGet, hp, ih hnd2 h1]

/-! ## Sorting lemmas -/

/-- Sorted insertion permutes a cons. -/
theorem insertStr_perm (a : String) (l : List String) :
    (insertStr a l).Perm (a :: l) := by
  induction l with
  | nil => simp [insertStr]
  | cons b rest ih =>
    by_cases h : strLeB a b
    · simp [insertStr, h]
    · simp only [insertStr, h, if_neg, Bool.false_eq_true, not_false_eq_true]
      exact (ih.cons b).trans (List.Perm.swap a b rest)

/-- The sort used by get_unique_years permutes its input. -/
theorem sortStr_perm (l : List String) : (sortStr l).Perm l := by
  induction l with
  | nil => simp [sortStr]
  | cons a rest ih => exact (insertStr_perm a (sortStr rest)).trans (ih.cons a)

/-! ## get_unique_years lemmas -/

/-- Invariant of the get_unique_years fold: the accumulator stays
duplicate-free and holds exactly the years of the processed dates. -/
theorem guy_fold_spec (l : List String) (acc : List String) (hacc : acc.Nodup) :
    (l.foldl guyStep acc).Nodup ∧
    (∀ y, y ∈ l.foldl guyStep acc ↔
      (y ∈ acc ∨ y ∈ l.map (fun date => pyslice date 0 4))) := by
  induction l generalizing acc with
  | nil => simp [hacc]
  | cons date rest ih =>
    simp only [List.foldl_cons, List.map_cons]
    by_cases h : pyslice date 0 4 ∈ acc
    · have hstep : guyStep acc date = acc := by simp [guyStep, h]
      rw [hstep]
      obtain ⟨h1, h2⟩ := ih acc hacc
      refine ⟨h1, fun y => ?_⟩
      rw [h2 y]
      constructor
      · rintro (hy | hy)
        · exact Or.inl hy
        · exact Or.inr (List.mem_cons_of_mem _ hy)
      · rintro (hy | hy)
        · exact Or.inl hy
        · rcases List.mem_cons.mp hy with hy2 | hy2
          · exact Or.inl (hy2 ▸ h)
          · exact Or.inr hy2
    · have hstep : guyStep acc date = sortStr (acc ++ [pyslice date 0 4]) := by
        simp [guyStep, h]
      rw [hstep]
      have hperm := sortStr_perm (acc ++ [pyslice date 0 4])
      have hnd : (sortStr (acc ++ [pyslice date 0 4])).Nodup := by
        refine hperm.nodup_iff.mpr ?_
        simp [List.nodup_append, hacc, h]
      obtain ⟨h1, h2⟩ := ih _ hnd
      refine ⟨h1, fun y => ?_⟩
      rw [h2 y]
      have hmem : y ∈ sortStr (acc ++ [pyslice date 0 4]) ↔
          y ∈ acc ∨ y = pyslice date 0 4 := by
        rw [hperm.mem_iff]
        simp
      rw [hmem]
      simp only [List.mem_cons]
      tauto

/-- The year list returned by get_unique_years is duplicate-free. -/
theorem get_unique_years_nodup (l : List String) : (get_unique_years l).Nodup :=
  (guy_fold_spec l [] (by simp)).1

/-- Membership in get_unique_years is membership among the 4-character
year slices of the dates. -/
theorem mem_get_unique_years (l : List String) (y : String) :
    y ∈ get_unique_years l ↔ y ∈ l.map (fun date => pyslice date 0 4) := by
  have h := (guy_fold_spec l [] (by simp)).2 y
  simpa [get_unique_years] using h

/-- An in-range getD picks an element of the list. -/
theorem getD_mem_of_lt {α : Type} (l : List α) (k : Nat) (d : α) (h : k < l.length) :
    l.getD k d ∈ l := by
  rw [List.getD_eq_getElem?_getD, List.getElem?_eq_getElem h]
  exact List.getElem_mem h

/-! ## initDict lemmas -/

/-- Folding zero-assignments of fresh, duplicate-free keys onto a dict
appends exactly those keys, gives each the value 0, and leaves every
other lookup unchanged. -/
theorem initDict_fold_spec (ys : List String) (d : List (String × Nat))
    (hnd : ys.Nodup) (hdis : ∀ y ∈ ys, y ∉ d.map Prod.fst) :
    ((ys.foldl (fun d year => dictSet d year 0) d).map Prod.fst
        = d.map Prod.fst ++ ys) ∧
    (∀ y ∈ ys, dictGet (ys.foldl (fun d year => dictSet d year 0) d) y = .ok 0) ∧
    (∀ k, k ∉ ys →
      dictGet (ys.foldl (fun d year => dictSet d year 0) d) k = dictGet d k) := by
  induction ys generalizing d with
  | nil => simp
  | cons y rest ih =>
    simp only [List.foldl_cons]
    have hy : y ∉ d.map Prod.fst := hdis y (by simp)
    have hkeys : (dictSet d y 0).map Prod.fst = d.map Prod.fst ++ [y] :=
      dictSet_map_fst_not_mem d y 0 hy
    have hnd2 : rest.Nodup := (List.nodup_cons.mp hnd).2
    have hyrest : y ∉ rest := (List.nodup_cons.mp hnd).1
    have hdis2 : ∀ z ∈ rest, z ∉ (dictSet d y 0).map Prod.fst := by
      intro z hz
      rw [hkeys]
      simp only [List.mem_append, List.mem_singleton]
      rintro (hz2 | hz2)
      · exact hdis z (List.mem_cons_of_mem _ hz) hz2
      · exact hyrest (hz2 ▸ hz)
    obtain ⟨ih1, ih2, ih3⟩ := ih (dictSet d y 0) hnd2 hdis2
    refine ⟨?_, ?_, ?_⟩
    · rw [ih1, hkeys]
      simp
    · intro z hz
      rcases List.mem_cons.mp hz with hz1 | hz1
      · subst hz1
        rw [ih3 z hyrest]
        exact dictGet_dictSet_self d z 0
      · exact ih2 z hz1
    · intro k hk
      have hk1 : k ∉ rest := fun hh => hk (List.mem_cons_of_mem _ hh)
      have hk2 : k ≠ y := fun hh => hk (hh ▸ List.mem_cons_self y rest)
      rw [ih3 k hk1, dictGet_dictSet_ne d y k 0 hk2]

/-- The keys of the pre-populated dict are the year list. -/
theorem initDict_keys (ys : List String) (h : ys.Nodup) :
    (initDict ys).map Prod.fst = ys := by
  have := (initDict_fold_spec ys [] h (by simp)).1
  simpa [initDict] using this

/-- Every year starts at count 0 in the pre-populated dict. -/
theorem initDict_get (ys : List String) (h : ys.Nodup) (y : String) (hy : y ∈ ys) :
    dictGet (initDict ys) y = .ok 0 :=
  (initDict_fold_spec ys [] h (by simp)).2.1 y hy

/-! ## Threshold-day counter lemmas -/

/-- Extending the counted range by one index adds one exactly when that
index qualifies. -/
theorem countQ_succ (dates : List String) (temps : List ℚ) (t : ℚ) (y : String)
    (k : Nat) :
    countQ dates temps t y (k + 1) =
      countQ dates temps t y k +
        (if (pyslice (dates.getD k "") 0 4 = y ∧ t ≤ temps.getD k 0) then 1 else 0) := by
  unfold countQ
  rw [List.range_succ, List.countP_append, List.countP_cons]
  simp

/-- Closed form of one iteration of the counting loop when the year of the
current date is already a key. -/
theorem gdhStep_eq (dates : List String) (temps : List ℚ) (t : ℚ)
    (d : List (String × Nat)) (k : Nat) (c : Nat)
    (hkt : k < temps.length) (hkd : k < dates.length)
    (hc : dictGet d (pyslice (dates.getD k "") 0 4) = .ok c) :
    gdhStep dates temps t d k =
      if t ≤ temps.getD k 0 then
        .ok (dictSet d (pyslice (dates.getD k "") 0 4) (c + 1))
      else .ok d := by
  unfold gdhStep
  rw [pyGetI_ok temps k 0 hkt, exbind_ok]
  by_cases h : t ≤ temps.getD k 0
  · simp only [if_pos h]
    rw [pyGetI_ok dates k "" hkd, exbind_ok]
    simp only [hc, exbind_ok]
  · simp only [if_neg h]

/-- Invariant of the get_days_higher_per_year loop: after the first k
iterations the dict is intact, its keys are exactly the unique years, and
each year holds the count of qualifying indexes below k. -/
theorem gdh_loop_spec (dates : List String) (temps : List ℚ) (t : ℚ)
    (hlen : dates.length = temps.length) :
    ∀ k, k ≤ temps.length →
    ∃ d, foldE (gdhStep dates temps t) (initDict (get_unique_years dates))
          (List.range k) = .ok d ∧
      d.map Prod.fst = get_unique_years dates ∧
      (∀ y, y ∈ get_unique_years dates →
        dictGet d y = .ok (countQ dates temps t y k)) := by
  intro k
  induction k with
  | zero =>
    intro _
    refine ⟨initDict (get_unique_years dates), by simp [foldE],
      initDict_keys _ (get_unique_years_nodup dates), ?_⟩
    intro y hy
    rw [initDict_get _ (get_unique_years_nodup dates) y hy]
    simp [countQ]
  | succ k ih =>
    intro hk
    obtain ⟨d, hfold, hkeys, hvals⟩ := ih (by omega)
    have hkt : k < temps.length := by omega
    have hkd : k < dates.length := by omega
    have hyear : pyslice (dates.getD k "") 0 4 ∈ get_unique_years dates := by
      rw [mem_get_unique_years]
      exact List.mem_map.mpr ⟨dates.getD k "", getD_mem_of_lt dates k "" hkd, rfl⟩
    have hc := hvals _ hyear
    rw [List.range_succ, foldE_append, hfold]
    simp only [foldE]
    rw [gdhStep_eq dates temps t d k _ hkt hkd hc]
    by_cases h : t ≤ temps.getD k 0
    · rw [if_pos h]
      refine ⟨dictSet d (pyslice (dates.getD k "") 0 4)
        (countQ dates temps t (pyslice (dates.getD k "") 0 4) k + 1), rfl, ?_, ?_⟩
      · rw [dictSet_map_fst_mem _ _ _ (hkeys ▸ hyear), hkeys]
      · intro y hy
        by_cases hyy : y = pyslice (dates.getD k "") 0 4
        · subst hyy
          rw [dictGet_dictSet_self, countQ_succ, if_pos ⟨rfl, h⟩]
        · have hne : ¬(pyslice (dates.getD k "") 0 4 = y ∧ t ≤ temps.getD k 0) :=
            fun hcon => hyy hcon.1.symm
          rw [dictGet_dictSet_ne _ _ _ _ hyy, hvals y hy, countQ_succ, if_neg hne]
          simp
    · rw [if_neg h]
      refine ⟨d, rfl, hkeys, ?_⟩
      intro y hy
      have hne : ¬(pyslice (dates.getD k "") 0 4 = y ∧ t ≤ temps.getD k 0) :=
        fun hcon => h hcon.2
      rw [hvals y hy, countQ_succ, if_neg hne]
      simp

/-- Counting against a higher threshold never counts more. -/
theorem countQ_anti (dates : List String) (temps : List ℚ) (t1 t2 : ℚ)
    (h : t1 ≤ t2) (y : String) (k : Nat) :
    countQ dates temps t2 y k ≤ countQ dates temps t1 y k := by
  unfold countQ
  apply List.countP_mono_left
  intro i _ hi
  simp only [Bool.and_eq_true, decide_eq_true_eq] at hi ⊢
  exact ⟨hi.1, le_trans h hi.2⟩

/-- The dates and maximum temperatures of the doctest series in
src/temperature.py. -/
def exDates : List String :=
  ["19010107", "19010108", "19010109", "19050109",
   "20000109", "20000110", "20000111", "20010109"]

/-- The parallel temperature list of the doctest series. -/
def exTemps : List ℚ := [-31.2, -26.1, 0.0, 24.9, 25.0, 29.9, 30.0, 30.1]

/-- C1: for equal-length parallel date and temperature lists and any
threshold, get_days_higher_per_year succeeds with a dict whose keys are
exactly the distinct 4-character year slices of the dates (without
duplicates), and whose value at each year is the number of indexes in
that year whose temperature reaches the threshold; a year with no
qualifying day therefore still appears, with value 0. -/
theorem C1_days_higher_per_year (dates : List String) (temps : List ℚ) (t : ℚ)
    (hlen : dates.length = temps.length) :
    ∃ d, get_days_higher_per_year dates temps t = .ok d ∧
      (∀ y, y ∈ d.map Prod.fst ↔ y ∈ dates.map (fun date => pyslice date 0 4)) ∧
      (d.map Prod.fst).Nodup ∧
      (∀ y v, (y, v) ∈ d → v = countQ dates temps t y temps.length) := by
  obtain ⟨d, hfold, hkeys, hvals⟩ :=
    gdh_loop_spec dates temps t hlen temps.length (le_refl _)
  refine ⟨d, ?_, ?_, ?_, ?_⟩
  · unfold get_days_higher_per_year
    exact hfold
  · intro y
    rw [hkeys, mem_get_unique_years]
  · rw [hkeys]
    exact get_unique_years_nodup dates
  · intro y v hyv
    have hy : y ∈ get_unique_years dates := by
      rw [← hkeys]
      exact List.mem_map.mpr ⟨(y, v), hyv, rfl⟩
    have hnd : (d.map Prod.fst).Nodup := by
      rw [hkeys]
      exact get_unique_years_nodup dates
    have h1 := hvals y hy
    have h2 := dictGet_of_mem_nodup d y v hnd hyv
    rw [h1] at h2
    injection h2 with h3
    exact h3.symm

/-- Witness for C1: the doctest series with threshold 25. -/
theorem C1_days_higher_per_year_witness :
    ∃ d, get_days_higher_per_year exDates exTemps 25 = .ok d ∧
      (∀ y, y ∈ d.map Prod.fst ↔ y ∈ exDates.map (fun date => pyslice date 0 4)) ∧
      (d.map Prod.fst).Nodup ∧
      (∀ y v, (y, v) ∈ d → v = countQ exDates exTemps 25 y exTemps.length) :=
  C1_days_higher_per_year exDates exTemps 25 (by rfl)

/-- C10: under the equal-length precondition the counting loop of
get_days_higher_per_year can never hit a missing key: the year of every
scanned date was pre-inserted from get_unique_years, the whole call
succeeds, and the KeyError branch is unreachable. -/
theorem C10_no_missing_key (dates : List String) (temps : List ℚ) (t : ℚ)
    (hlen : dates.length = temps.length) :
    ∃ d, get_days_higher_per_year dates temps t = .ok d := by
  obtain ⟨d, hfold, -, -⟩ :=
    gdh_loop_spec dates temps t hlen temps.length (le_refl _)
  refine ⟨d, ?_⟩
  unfold get_days_higher_per_year
  exact hfold

/-- Witness for C10: the doctest series with threshold 30. -/
theorem C10_no_missing_key_witness :
    ∃ d, get_days_higher_per_year exDates exTemps 30 = .ok d :=
  C10_no_missing_key exDates exTemps 30 (by rfl)

/-- C9: on equal-length inputs the summer (threshold 25) and tropical
(threshold 30) dicts both succeed, carry exactly the same year keys, and
year by year the tropical count never exceeds the summer count. -/
theorem C9_tropical_le_summer (dates : List String) (temps : List ℚ)
    (hlen : dates.length = temps.length) :
    ∃ ds dt, get_summer_days_per_year dates temps = .ok ds ∧
      get_tropical_days_per_year dates temps = .ok dt ∧
      ds.map Prod.fst = dt.map Prod.fst ∧
      (∀ y v25 v30, (y, v25) ∈ ds → (y, v30) ∈ dt → v30 ≤ v25) := by
  obtain ⟨ds, hs, hsk, hsv⟩ :=
    gdh_loop_spec dates temps 25 hlen temps.length (le_refl _)
  obtain ⟨dt, ht, htk, htv⟩ :=
    gdh_loop_spec dates temps 30 hlen temps.length (le_refl _)
  have hsnd : (ds.map Prod.fst).Nodup := by
    rw [hsk]
    exact get_unique_years_nodup dates
  have htnd : (dt.map Prod.fst).Nodup := by
    rw [htk]
    exact get_unique_years_nodup dates
  refine ⟨ds, dt, ?_, ?_, by rw [hsk, htk], ?_⟩
  · unfold get_summer_days_per_year get_days_higher_per_year
    exact hs
  · unfold get_tropical_days_per_year get_days_higher_per_year
    exact ht
  · intro y v25 v30 hys hyt
    have hy : y ∈ get_unique_years dates := by
      rw [← hsk]
      exact List.mem_map.mpr ⟨(y, v25), hys, rfl⟩
    have h1 := hsv y hy
    have h2 := dictGet_of_mem_nodup ds y v25 hsnd hys
    rw [h1] at h2
    injection h2 with h3
    have h4 := htv y hy
    have h5 := dictGet_of_mem_nodup dt y v30 htnd hyt
    rw [h4] at h5
    injection h5 with h6
    rw [← h3, ← h6]
    exact countQ_anti dates temps 25 30 (by norm_num) y temps.length

/-- Witness for C9: the doctest series. -/
theorem C9_tropical_le_summer_witness :
    ∃ ds dt, get_summer_days_per_year exDates exTemps = .ok ds ∧
      get_tropical_days_per_year exDates exTemps = .ok dt ∧
      ds.map Prod.fst = dt.map Prod.fst ∧
      (∀ y v25 v30, (y, v25) ∈ ds → (y, v30) ∈ dt → v30 ≤ v25) :=
  C9_tropical_le_summer exDates exTemps (by rfl)

/-! ## Extremum finder lemmas -/

/-- Invariant of the get_highest_temp loop: after the first k iterations
the accumulator is the pair at the first index attaining the maximum of
the scanned prefix. -/
theorem hot_loop_spec (dates : List String) (temps : List ℚ)
    (hlen : dates.length = temps.length) (h0 : 0 < temps.length) :
    ∀ k, k ≤ temps.length →
    ∃ j, j < temps.length ∧ (j = 0 ∨ j < k) ∧
      foldE (hotStep dates temps) (dates.getD 0 "", temps.getD 0 0) (List.range k)
        = .ok (dates.getD j "", temps.getD j 0) ∧
      (∀ m, m < k → temps.getD m 0 ≤ temps.getD j 0) ∧
      (∀ m, m < j → temps.getD m 0 < temps.getD j 0) := by
  intro k
  induction k with
  | zero =>
    intro _
    exact ⟨0, h0, Or.inl rfl, by simp [foldE], by omega, by omega⟩
  | succ k ih =>
    intro hk
    obtain ⟨j, hj, hjk, hfold, hmax, hfirst⟩ := ih (by omega)
    have hkt : k < temps.length := by omega
    have hkd : k < dates.length := by omega
    rw [List.range_succ, foldE_append, hfold]
    simp only [foldE]
    unfold hotStep
    rw [pyGetI_ok temps k 0 hkt, exbind_ok]
    by_cases h : temps.getD j 0 < temps.getD k 0
    · rw [if_pos (show (dates.getD j "", temps.getD j 0).2 < temps.getD k 0 from h)]
      rw [pyGetI_ok dates k "" hkd, exbind_ok]
      refine ⟨k, hkt, Or.inr (by omega), rfl, ?_, ?_⟩
      · intro m hm
        rcases Nat.lt_succ_iff_lt_or_eq.mp hm with hm2 | hm2
        · exact le_of_lt (lt_of_le_of_lt (hmax m hm2) h)
        · subst hm2
          exact le_refl _
      · intro m hm
        exact lt_of_le_of_lt (hmax m hm) h
    · rw [if_neg (show ¬((dates.getD j "", temps.getD j 0).2 < temps.getD k 0) from h)]
      refine ⟨j, hj, ?_, rfl, ?_, hfirst⟩
      · rcases hjk with h2 | h2
        · exact Or.inl h2
        · exact Or.inr (by omega)
      · intro m hm
        rcases Nat.lt_succ_iff_lt_or_eq.mp hm with hm2 | hm2
        · exact hmax m hm2
        · subst hm2
          exact le_of_not_lt h

/-- Invariant of the get_lowest_temp loop, mirror of hot_loop_spec. -/
theorem cold_loop_spec (dates : List String) (temps : List ℚ)
    (hlen : dates.length = temps.length) (h0 : 0 < temps.length) :
    ∀ k, k ≤ temps.length →
    ∃ j, j < temps.length ∧ (j = 0 ∨ j < k) ∧
      foldE (coldStep dates temps) (dates.getD 0 "", temps.getD 0 0) (List.range k)
        = .ok (dates.getD j "", temps.getD j 0) ∧
      (∀ m, m < k → temps.getD j 0 ≤ temps.getD m 0) ∧
      (∀ m, m < j → temps.getD j 0 < temps.getD m 0) := by
  intro k
  induction k with
  | zero =>
    intro _
    exact ⟨0, h0, Or.inl rfl, by simp [foldE], by omega, by omega⟩
  | succ k ih =>
    intro hk
    obtain ⟨j, hj, hjk, hfold, hmin, hfirst⟩ := ih (by omega)
    have hkt : k < temps.length := by omega
    have hkd : k < dates.length := by omega
    rw [List.range_succ, foldE_append, hfold]
    simp only [foldE]
    unfold coldStep
    rw [pyGetI_ok temps k 0 hkt, exbind_ok]
    by_cases h : temps.getD k 0 < temps.getD j 0
    · rw [if_pos (show temps.getD k 0 < (dates.getD j "", temps.getD j 0).2 from h)]
      rw [pyGetI_ok dates k "" hkd, exbind_ok]
      refine ⟨k, hkt, Or.inr (by omega), rfl, ?_, ?_⟩
      · intro m hm
        rcases Nat.lt_succ_iff_lt_or_eq.mp hm with hm2 | hm2
        · exact le_of_lt (lt_of_lt_of_le h (hmin m hm2))
        · subst hm2
          exact le_refl _
      · intro m hm
        exact lt_of_lt_of_le h (hmin m hm)
    · rw [if_neg (show ¬(temps.getD k 0 < (dates.getD j "", temps.getD j 0).2) from h)]
      refine ⟨j, hj, ?_, rfl, ?_, hfirst⟩
      · rcases hjk with h2 | h2
        · exact Or.inl h2
        · exact Or.inr (by omega)
      · intro m hm
        rcases Nat.lt_succ_iff_lt_or_eq.mp hm with hm2 | hm2
        · exact hmin m hm2
        · subst hm2
          exact le_of_not_lt h

/-- C2: on non-empty equal-length inputs, get_highest_temp returns the
(date, temperature) pair at the smallest index attaining the maximum
temperature (a later equal value never overwrites, since the comparison
is strict), and get_lowest_temp symmetrically returns the
first-occurring minimum pair. -/
theorem C2_first_extremum (dates : List String) (temps : List ℚ)
    (hlen : dates.length = temps.length) (hne : temps ≠ []) :
    (∃ j, j < temps.length ∧
      get_highest_temp dates temps = .ok (dates.getD j "", temps.getD j 0) ∧
      (∀ m, m < temps.length → temps.getD m 0 ≤ temps.getD j 0) ∧
      (∀ m, m < j → temps.getD m 0 < temps.getD j 0)) ∧
    (∃ j, j < temps.length ∧
      get_lowest_temp dates temps = .ok (dates.getD j "", temps.getD j 0) ∧
      (∀ m, m < temps.length → temps.getD j 0 ≤ temps.getD m 0) ∧
      (∀ m, m < j → temps.getD j 0 < temps.getD m 0)) := by
  have h0 : 0 < temps.length := List.length_pos.mpr hne
  have h0d : 0 < dates.length := by omega
  have ht0 : pyGetI temps 0 = .ok (temps.getD 0 0) := by
    have h := pyGetI_ok temps 0 0 h0
    simpa using h
  have hd0 : pyGetI dates 0 = .ok (dates.getD 0 "") := by
    have h := pyGetI_ok dates 0 "" h0d
    simpa using h
  constructor
  · obtain ⟨j, hj, -, hfold, hmax, hfirst⟩ :=
      hot_loop_spec dates temps hlen h0 temps.length (le_refl _)
    refine ⟨j, hj, ?_, hmax, hfirst⟩
    unfold get_highest_temp
    rw [ht0, exbind_ok, hd0, exbind_ok]
    exact hfold
  · obtain ⟨j, hj, -, hfold, hmin, hfirst⟩ :=
      cold_loop_spec dates temps hlen h0 temps.length (le_refl _)
    refine ⟨j, hj, ?_, hmin, hfirst⟩
    unfold get_lowest_temp
    rw [ht0, exbind_ok, hd0, exbind_ok]
    exact hfold

/-- The three-day doctest series of get_highest_temp and
get_longest_freezing. -/
def exDates3 : List String := ["19010107", "19010108", "19010109"]

/-- The parallel temperature list of the three-day doctest series. -/
def exTemps3 : List ℚ := [-6.6, -0.6, 4.2]

/-- Witness for C2: the three-day doctest series. -/
theorem C2_first_extremum_witness :
    (∃ j, j < exTemps3.length ∧
      get_highest_temp exDates3 exTemps3 = .ok (exDates3.getD j "", exTemps3.getD j 0) ∧
      (∀ m, m < exTemps3.length → exTemps3.getD m 0 ≤ exTemps3.getD j 0) ∧
      (∀ m, m < j → exTemps3.getD m 0 < exTemps3.getD j 0)) ∧
    (∃ j, j < exTemps3.length ∧
      get_lowest_temp exDates3 exTemps3 = .ok (exDates3.getD j "", exTemps3.getD j 0) ∧
      (∀ m, m < exTemps3.length → exTemps3.getD j 0 ≤ exTemps3.getD m 0) ∧
      (∀ m, m < j → exTemps3.getD j 0 < exTemps3.getD m 0)) :=
  C2_first_extremum exDates3 exTemps3 (by rfl) (by simp [exTemps3])

/-! ## Freeze-run tracker lemmas -/

/-- Length of the maximal run of consecutive sub-zero temperatures ending
just before index k. -/
def negRunLen (temps : List ℚ) : Nat → Nat
  | 0 => 0
  | k + 1 => if temps.getD k 0 < 0 then negRunLen temps k + 1 else 0

/-- A freezing day extends the open run count. -/
theorem negRunLen_succ_neg (temps : List ℚ) (k : Nat) (h : temps.getD k 0 < 0) :
    negRunLen temps (k + 1) = negRunLen temps k + 1 := by
  simp only [negRunLen]
  exact if_pos h

/-- A non-freezing day resets the open run count. -/
theorem negRunLen_succ_nonneg (temps : List ℚ) (k : Nat) (h : ¬temps.getD k 0 < 0) :
    negRunLen temps (k + 1) = 0 := by
  simp only [negRunLen]
  exact if_neg h

/-- Invariant of the get_longest_freezing scan: after k iterations the
scan has succeeded, the freezing flag is set exactly when a sub-zero run
is open, and while it is set the current period is the length of that
run. -/
theorem freeze_loop_spec (dates : List String) (temps : List ℚ)
    (hlen : dates.length = temps.length) :
    ∀ k, k ≤ temps.length →
    ∃ s, freezeExec dates temps k = .ok s ∧
      s.was_freezing = decide (0 < negRunLen temps k) ∧
      (s.was_freezing = true → s.uninterrupted_period = negRunLen temps k) := by
  intro k
  induction k with
  | zero =>
    intro _
    refine ⟨⟨0, 0, "", false⟩, by simp [freezeExec, foldE], by simp [negRunLen], ?_⟩
    intro h
    simp at h
  | succ k ih =>
    intro hk
    obtain ⟨s, hfold, hwf, hper⟩ := ih (by omega)
    have hkt : k < temps.length := by omega
    unfold freezeExec at hfold ⊢
    rw [List.range_succ, foldE_append, hfold]
    simp only [foldE]
    unfold freezeStep
    rw [pyGetI_ok temps k 0 hkt, exbind_ok]
    by_cases hneg : temps.getD k 0 < 0
    · rw [if_pos hneg]
      by_cases hw : s.was_freezing = true
      · rw [if_pos hw]
        refine ⟨_, rfl, ?_, ?_⟩
        · rw [negRunLen_succ_neg temps k hneg]
          simp [hw]
        · intro _
          have hp := hper hw
          rw [negRunLen_succ_neg temps k hneg]
          simp [hp]
      · rw [if_neg hw]
        have hz : negRunLen temps k = 0 := by
          rw [Bool.not_eq_true] at hw
          rw [hw] at hwf
          have := of_decide_eq_false hwf.symm
          omega
        refine ⟨_, rfl, ?_, ?_⟩
        · rw [negRunLen_succ_neg temps k hneg]
          simp
        · intro _
          rw [negRunLen_succ_neg temps k hneg]
          simp [hz]
    · rw [if_neg hneg]
      by_cases hw : s.was_freezing = true
      · rw [if_pos hw]
        by_cases hrec : s.longest_uninterrupted_period < s.uninterrupted_period
        · rw [if_pos hrec]
          have hk1 : 1 ≤ k := by
            by_contra hcon
            have hk0 : k = 0 := by omega
            rw [hk0] at hwf
            simp [negRunLen] at hwf
            rw [hwf] at hw
            exact Bool.false_ne_true hw
          have hidx : ((k : Int) - 1) = (((k - 1 : Nat)) : Int) := by omega
          rw [hidx, pyGetI_ok dates (k - 1) "" (by omega), exbind_ok]
          refine ⟨_, rfl, ?_, ?_⟩
          · rw [negRunLen_succ_nonneg temps k hneg]
            simp
          · intro hcon
            simp at hcon
        · rw [if_neg hrec]
          refine ⟨_, rfl, ?_, ?_⟩
          · rw [negRunLen_succ_nonneg temps k hneg]
            simp
          · intro hcon
            simp at hcon
      · rw [if_neg hw]
        refine ⟨s, rfl, ?_, ?_⟩
        · rw [Bool.not_eq_true] at hw
          rw [negRunLen_succ_nonneg temps k hneg]
          simp [hw]
        · intro hcon
          exact absurd hcon hw

/-- A run of exactly n consecutive sub-zero days ending just before index
i, preceded by the start of the series or a non-freezing day, has
negRunLen n. -/
theorem negRunLen_of_run (temps : List ℚ) (i n : Nat) (hni : n ≤ i)
    (hrun : ∀ m, i - n ≤ m → m < i → temps.getD m 0 < 0)
    (hbd : n = i ∨ 0 ≤ temps.getD (i - n - 1) 0) :
    negRunLen temps i = n := by
  induction n generalizing i with
  | zero =>
    rcases hbd with h | h
    · rw [← h]
      simp [negRunLen]
    · cases i with
      | zero => simp [negRunLen]
      | succ j =>
        have hidx : j + 1 - 0 - 1 = j := by omega
        rw [hidx] at h
        exact negRunLen_succ_nonneg temps j (not_lt.mpr h)
  | succ n ih =>
    have hi1 : 1 ≤ i := by omega
    obtain ⟨j, hj⟩ : ∃ j, i = j + 1 := ⟨i - 1, by omega⟩
    subst hj
    have hlast : temps.getD j 0 < 0 := hrun j (by omega) (by omega)
    rw [negRunLen_succ_neg temps j hlast]
    congr 1
    apply ih j (by omega)
    · intro m h1 h2
      exact hrun m (by omega) (by omega)
    · rcases hbd with h | h
      · left
        omega
      · right
        have hidx : j - n - 1 = j + 1 - (n + 1) - 1 := by omega
        rw [hidx]
        exact h

/-- C3: whenever a run of exactly n consecutive sub-zero days is followed
at index i by a day at or above zero, and n beats the best record so far,
the scan records length n with end date dates[i-1], the last day that was
still freezing; in particular the doctest series gives (2, 19010108). -/
theorem C3_run_recorded :
    (∀ (dates : List String) (temps : List ℚ) (i n : Nat) (s : FreezeState),
      dates.length = temps.length → i < temps.length →
      1 ≤ n → n ≤ i →
      (∀ m, i - n ≤ m → m < i → temps.getD m 0 < 0) →
      (n = i ∨ 0 ≤ temps.getD (i - n - 1) 0) →
      0 ≤ temps.getD i 0 →
      freezeExec dates temps i = .ok s →
      s.longest_uninterrupted_period < n →
      ∃ s2, freezeExec dates temps (i + 1) = .ok s2 ∧
        s2.longest_uninterrupted_period = n ∧
        s2.last_day = dates.getD (i - 1) "") ∧
    get_longest_freezing exDates3 exTemps3 = .ok (2, "19010108") := by
  constructor
  · intro dates temps i n s hlen hi hn1 hni hrun hbd ht hexec hbest
    have hnr : negRunLen temps i = n := negRunLen_of_run temps i n hni hrun hbd
    obtain ⟨s0, hfold, hwf, hper⟩ := freeze_loop_spec dates temps hlen i (le_of_lt hi)
    rw [hexec] at hfold
    injection hfold with hss
    subst hss
    have hwf2 : s.was_freezing = true := by
      rw [hwf, hnr]
      simp
      omega
    have hper2 : s.uninterrupted_period = n := by
      rw [hper hwf2, hnr]
    unfold freezeExec at hexec ⊢
    rw [List.range_succ, foldE_append, hexec]
    simp only [foldE]
    unfold freezeStep
    rw [pyGetI_ok temps i 0 hi, exbind_ok]
    rw [if_neg (not_lt.mpr ht), if_pos hwf2,
      if_pos (show s.longest_uninterrupted_period < s.uninterrupted_period by
        rw [hper2]
        exact hbest)]
    have hidx : ((i : Int) - 1) = (((i - 1 : Nat)) : Int) := by omega
    rw [hidx, pyGetI_ok dates (i - 1) "" (by omega), exbind_ok]
    exact ⟨_, rfl, by simp [hper2], by simp⟩
  · decide

/-- Witness for C3: index 2 of the doctest series closes a 2-day run that
beats the initial record of 0. -/
theorem C3_run_recorded_witness :
    ∃ s2, freezeExec exDates3 exTemps3 (2 + 1) = .ok s2 ∧
      s2.longest_uninterrupted_period = 2 ∧
      s2.last_day = exDates3.getD (2 - 1) "" :=
  C3_run_recorded.1 exDates3 exTemps3 2 2 ⟨2, 0, "", true⟩ (by rfl) (by decide)
    (by decide) (by decide)
    (by
      intro m h1 h2
      interval_cases m
      · decide
      · decide)
    (Or.inl rfl)
    (by decide)
    (by decide)
    (by decide)

/-- Scanning further through days that are all sub-zero never changes the
recorded best length or end date. -/
theorem freeze_trailing (dates : List String) (temps : List ℚ)
    (hlen : dates.length = temps.length) (k : Nat) (hk : k ≤ temps.length)
    (htrail : ∀ m, k ≤ m → m < temps.length → temps.getD m 0 < 0) :
    ∀ j, k ≤ j → j ≤ temps.length →
    ∃ s0 sj, freezeExec dates temps k = .ok s0 ∧ freezeExec dates temps j = .ok sj ∧
      sj.longest_uninterrupted_period = s0.longest_uninterrupted_period ∧
      sj.last_day = s0.last_day := by
  intro j hkj
  induction j, hkj using Nat.le_induction with
  | base =>
    intro _
    obtain ⟨s, hfold, -, -⟩ := freeze_loop_spec dates temps hlen k hk
    exact ⟨s, s, hfold, hfold, rfl, rfl⟩
  | succ j hkj ih =>
    intro hj1
    obtain ⟨s0, sj, h0, hj, he1, he2⟩ := ih (by omega)
    have hjt : j < temps.length := by omega
    have hjneg : temps.getD j 0 < 0 := htrail j hkj hjt
    by_cases hw : sj.was_freezing = true
    · refine ⟨s0, { sj with uninterrupted_period := sj.uninterrupted_period + 1 },
        h0, ?_, by simp [he1], by simp [he2]⟩
      unfold freezeExec at hj ⊢
      rw [List.range_succ, foldE_append, hj]
      simp only [foldE]
      unfold freezeStep
      rw [pyGetI_ok temps j 0 hjt, exbind_ok, if_pos hjneg, if_pos hw]
    · refine ⟨s0, { sj with was_freezing := true, uninterrupted_period := 1 },
        h0, ?_, by simp [he1], by simp [he2]⟩
      unfold freezeExec at hj ⊢
      rw [List.range_succ, foldE_append, hj]
      simp only [foldE]
      unfold freezeStep
      rw [pyGetI_ok temps j 0 hjt, exbind_ok, if_pos hjneg, if_neg hw]

/-- When no day is below zero the scan never leaves its initial state. -/
theorem freeze_allnonneg (dates : List String) (temps : List ℚ)
    (hpos : ∀ m, m < temps.length → 0 ≤ temps.getD m 0) :
    ∀ k, k ≤ temps.length → freezeExec dates temps k = .ok ⟨0, 0, "", false⟩ := by
  intro k
  induction k with
  | zero =>
    intro _
    simp [freezeExec, foldE]
  | succ k ih =>
    intro hk
    have h := ih (by omega)
    unfold freezeExec at h ⊢
    rw [List.range_succ, foldE_append, h]
    simp only [foldE]
    unfold freezeStep
    rw [pyGetI_ok temps k 0 (by omega), exbind_ok]
    rw [if_neg (not_lt.mpr (hpos k (by omega)))]
    rfl

/-- C4: a freezing run still open at the final record never updates the
result of get_longest_freezing: whatever was recorded before a trailing
all-freezing stretch is returned unchanged; in particular a non-empty
all-freezing series yields (0, empty string), and so does a series with
no sub-zero day at all. -/
theorem C4_open_run_not_counted :
    (∀ (dates : List String) (temps : List ℚ) (k : Nat),
      dates.length = temps.length → k ≤ temps.length →
      (∀ m, k ≤ m → m < temps.length → temps.getD m 0 < 0) →
      ∃ s, freezeExec dates temps k = .ok s ∧
        get_longest_freezing dates temps =
          .ok (s.longest_uninterrupted_period, s.last_day)) ∧
    (∀ (dates : List String) (temps : List ℚ),
      dates.length = temps.length → temps ≠ [] →
      (∀ m, m < temps.length → temps.getD m 0 < 0) →
      get_longest_freezing dates temps = .ok (0, "")) ∧
    (∀ (dates : List String) (temps : List ℚ),
      dates.length = temps.length →
      (∀ m, m < temps.length → 0 ≤ temps.getD m 0) →
      get_longest_freezing dates temps = .ok (0, "")) := by
  refine ⟨?_, ?_, ?_⟩
  · intro dates temps k hlen hk htrail
    obtain ⟨s0, sj, h0, hjj, he1, he2⟩ :=
      freeze_trailing dates temps hlen k hk htrail temps.length hk (le_refl _)
    refine ⟨s0, h0, ?_⟩
    unfold get_longest_freezing
    rw [hlen, hjj, exbind_ok, he1, he2]
  · intro dates temps hlen hne hneg
    obtain ⟨s0, sj, h0, hjj, he1, he2⟩ :=
      freeze_trailing dates temps hlen 0 (by omega)
        (fun m _ hm => hneg m hm) temps.length (by omega) (le_refl _)
    have h00 : freezeExec dates temps 0 = .ok ⟨0, 0, "", false⟩ := by
      simp [freezeExec, foldE]
    rw [h00] at h0
    injection h0 with h0e
    unfold get_longest_freezing
    rw [hlen, hjj, exbind_ok, he1, he2, ← h0e]
  · intro dates temps hlen hpos
    have h := freeze_allnonneg dates temps hpos temps.length (le_refl _)
    unfold get_longest_freezing
    rw [hlen, h, exbind_ok]

/-- Witness for C4: a one-day all-freezing series is reported as
(0, empty string). -/
theorem C4_open_run_not_counted_witness :
    get_longest_freezing ["19010101"] [-5] = .ok (0, "") :=
  C4_open_run_not_counted.2.1 ["19010101"] [-5] (by rfl) (by simp)
    (by
      intro m hm
      have hm0 : m = 0 := by
        simp at hm
        omega
      subst hm0
      decide)

/-- C5 counterexample: on empty inputs both extremum functions fail with
the IndexError of the seeding list access (an out-of-bounds error), which
is not the explicit empty-series precondition error the claim names. -/
theorem C5_counterexample :
    get_highest_temp [] [] = .error .indexError ∧
    get_lowest_temp [] [] = .error .indexError ∧
    Err.indexError ≠ Err.emptySeriesError := by
  exact ⟨by rfl, by rfl, by decide⟩

/-- C5 (amended): calling get_highest_temp or get_lowest_temp on an empty
temperature series fails with an out-of-bounds IndexError from reading
element 0, a fatal error rather than a silently-returned default. -/
theorem C5_empty_series_index_error (dates : List String) (temps : List ℚ)
    (h : temps = []) :
    get_highest_temp dates temps = .error .indexError ∧
    get_lowest_temp dates temps = .error .indexError := by
  subst h
  exact ⟨rfl, rfl⟩

/-- Witness for C5: both sequences empty. -/
theorem C5_empty_series_index_error_witness :
    get_highest_temp [] [] = .error .indexError ∧
    get_lowest_temp [] [] = .error .indexError :=
  C5_empty_series_index_error [] [] rfl

/-- C8: on the doctest series the driver loop that indexes the summer and
tropical count lists with the summer counts themselves yields [0,0,0,0],
while the by-year subtraction the spec intends yields [0,0,2,0]; the two
disagree, so the positional-by-value indexing is a genuine defect. -/
theorem C8_driver_positional_bug :
    summer_list_excl_tropical exDates exTemps = .ok [0, 0, 0, 0] ∧
    byYearSummerExclTropical exDates exTemps = .ok [0, 0, 2, 0] ∧
    ([0, 0, 0, 0] : List Int) ≠ [0, 0, 2, 0] := by
  exact ⟨by decide, by decide, by decide⟩

/-! ## read_data lemmas -/

/-- Every pyInt failure carries the offending literal. -/
theorem pyInt_error_shape (s : String) (e : Err) (h : pyInt s = .error e) :
    e = .valueError s := by
  unfold pyInt pyIntOfChars at h
  split at h
  · exact absurd h (by simp)
  · injection h with h2
    exact h2.symm

/-- A non-header line before the header leaves the read state unchanged. -/
theorem readStep_not_header (st : Bool × List String × List ℚ) (p : String)
    (hflag : st.1 = false)
    (hp : pyStartsWith (pyStrip (pyRstripNl p)) "STAID" = false) :
    readStep st p = .ok st := by
  unfold readStep
  rw [if_pos hflag, if_neg (by simp [hp])]

/-- The header line flips the data flag and keeps the accumulators. -/
theorem readStep_header (st : Bool × List String × List ℚ) (p : String)
    (hflag : st.1 = false)
    (hp : pyStartsWith (pyStrip (pyRstripNl p)) "STAID" = true) :
    readStep st p = .ok (true, st.2.1, st.2.2) := by
  unfold readStep
  rw [if_pos hflag, if_pos hp]

/-- A data line whose temperature field fails int parsing aborts the scan
with that error. -/
theorem readStep_data_bad (st : Bool × List String × List ℚ) (l : String)
    (e : Err) (hflag : st.1 = true)
    (hbad : pyInt (pyStrip (pyslice (pyRstripNl l) 23 28)) = .error e) :
    readStep st l = .error e := by
  unfold readStep
  rw [if_neg (by simp [hflag]), hbad, exbind_error]

/-- Lines before the header are skipped without touching the state. -/
theorem read_data_skips_pre (pre : List String)
    (hpre : ∀ p ∈ pre, pyStartsWith (pyStrip (pyRstripNl p)) "STAID" = false) :
    foldE readStep (false, [], []) pre = .ok (false, [], []) := by
  induction pre with
  | nil => rfl
  | cons p rest ih =>
    simp only [foldE]
    rw [readStep_not_header (false, [], []) p rfl (hpre p (by simp))]
    exact ih (fun q hq => hpre q (by simp [hq]))

/-- C6 (amended): when the first data line after the header has a
temperature field (characters 23 to 28, stripped) that does not parse as
an integer, read_data fails with the int-parse ValueError carrying the
offending field text; the error does not carry the line number, and a
short line whose truncated field still parses as an integer is accepted
silently (see the counterexample). -/
theorem C6_short_line_parse_error (pre : List String) (hl l : String) (e : Err)
    (hpre : ∀ p ∈ pre, pyStartsWith (pyStrip (pyRstripNl p)) "STAID" = false)
    (hhl : pyStartsWith (pyStrip (pyRstripNl hl)) "STAID" = true)
    (hbad : pyInt (pyStrip (pyslice (pyRstripNl l) 23 28)) = .error e) :
    read_data (pre ++ [hl, l]) =
      .error (.valueError (pyStrip (pyslice (pyRstripNl l) 23 28))) := by
  have he := pyInt_error_shape _ e hbad
  subst he
  unfold read_data
  rw [foldE_append, read_data_skips_pre pre hpre]
  simp only [foldE]
  rw [readStep_header (false, [], []) hl rfl hhl]
  dsimp only
  rw [readStep_data_bad (true, [], []) l _ rfl hbad]
  rfl

/-- Witness for C6: a header and then an empty data line, whose empty
temperature field fails int parsing. -/
theorem C6_short_line_parse_error_witness :
    read_data ["STAID", ""] = .error (.valueError "") :=
  C6_short_line_parse_error [] "STAID" "" (.valueError "")
    (by simp) (by rfl) (by rfl)

/-- C6 counterexample: a 26-character data line, shorter than the
28-character layout, whose truncated temperature field is the digit run
123; read_data accepts it silently with temperature 12.3 instead of
failing with a parse error. -/
theorem C6_counterexample :
    ("0123456789012319010107,123" : String).length < 28 ∧
    read_data ["STAID, SOUID", "0123456789012319010107,123"] =
      .ok (["19010107"], [12.3]) := by
  exact ⟨by decide, by decide⟩

/-! ## Date formatter lemmas -/

/-- A digit is not whitespace. -/
theorem isPySpace_of_digit (c : Char) (h : isAsciiDigit c = true) :
    isPySpace c = false := by
  by_contra hcon
  have hsp : isPySpace c = true := by
    cases hq : isPySpace c
    · exact absurd hq hcon
    · rfl
  unfold isPySpace at hsp
  simp only [Bool.or_eq_true, decide_eq_true_eq] at hsp
  rcases hsp with ((((h1 | h1) | h1) | h1) | h1) | h1 <;> subst h1 <;>
    exact absurd h (by decide)

/-- A nonempty all-digit character run passes the digit-run check. -/
theorem digitsOk_of_digits (cs : List Char) (hne : cs ≠ [])
    (hd : ∀ c ∈ cs, isAsciiDigit c = true) : digitsOk cs = true := by
  induction cs with
  | nil => exact absurd rfl hne
  | cons c rest ih =>
    cases rest with
    | nil =>
      have := hd c (by simp)
      simpa [digitsOk] using this
    | cons d rest2 =>
      have hc := hd c (by simp)
      have hdd : isAsciiDigit d = true := hd d (by simp)
      have hun : ¬(d = '_') := by
        intro hdu
        rw [hdu] at hdd
        exact absurd hdd (by decide)
      have hrest : digitsOk (d :: rest2) = true :=
        ih (by simp) (fun x hx => hd x (List.mem_cons_of_mem c hx))
      have hstep : digitsOk (c :: d :: rest2) =
          (isAsciiDigit c && digitsOk (d :: rest2)) := by
        rw [digitsOk.eq_def]
        dsimp only
        rw [if_neg hun]
      rw [hstep, hc, hrest]
      rfl

/-- An all-digit run contains no underscore to filter. -/
theorem filter_ne_underscore (cs : List Char)
    (hd : ∀ c ∈ cs, isAsciiDigit c = true) :
    cs.filter (fun c => c ≠ '_') = cs := by
  apply List.filter_eq_self.mpr
  intro a ha
  have hda := hd a ha
  simp only [ne_eq, decide_eq_true_eq]
  intro hcon
  rw [hcon] at hda
  exact absurd hda (by decide)

/-- dropWhile is the identity when no element satisfies the predicate. -/
theorem dropWhile_eq_self_of_all (p : Char → Bool) (cs : List Char)
    (h : ∀ c ∈ cs, p c = false) : cs.dropWhile p = cs := by
  cases cs with
  | nil => rfl
  | cons c rest =>
    rw [List.dropWhile_cons, h c (by simp)]
    rfl

/-- Stripping whitespace from a string with no whitespace is the
identity. -/
theorem pyStrip_eq_self (t : String) (hd : ∀ c ∈ t.data, isPySpace c = false) :
    pyStrip t = t := by
  unfold pyStrip
  rw [dropWhile_eq_self_of_all _ _ hd,
    dropWhile_eq_self_of_all _ _ (fun c hc => hd c (List.mem_reverse.mp hc)),
    List.reverse_reverse]

/-- Python int() accepts a nonempty all-digit string and returns its
numeric value. -/
theorem pyInt_digits (t : String) (hne : t.data ≠ [])
    (hd : ∀ c ∈ t.data, isAsciiDigit c = true) :
    pyInt t = .ok ((digitsVal t.data : Nat) : Int) := by
  unfold pyInt
  rw [pyStrip_eq_self t (fun c hc => isPySpace_of_digit c (hd c hc))]
  unfold pyIntOfChars
  have hsign : pySign t.data = (1, t.data) := by
    cases hcs : t.data with
    | nil => exact absurd hcs hne
    | cons c rest =>
      have hc : isAsciiDigit c = true := hd c (by rw [hcs]; simp)
      have hcp : ¬(c = '+') := by
        intro hh
        rw [hh] at hc
        exact absurd hc (by decide)
      have hcm : ¬(c = '-') := by
        intro hh
        rw [hh] at hc
        exact absurd hc (by decide)
      simp [pySign, hcp, hcm]
  rw [hsign]
  dsimp only
  rw [if_pos (digitsOk_of_digits t.data hne hd)]
  rw [filter_ne_underscore t.data hd, one_mul]

/-- C7 (amended): get_friendly_date renders 19670503 as 3 May 1967 (day
as a non-zero-padded integer, full English month name, then year), and
every 8-character all-digit input that does not form a valid calendar
date, such as 20210230, raises an invalid-date error rather than
silently clamping; 8-character inputs with sign or whitespace characters
in a field can instead be accepted when int parsing succeeds on them
(see the counterexample). -/
theorem C7_friendly_date :
    get_friendly_date "19670503" = .ok "3 May 1967" ∧
    (∀ s : String, s.length = 8 → (∀ c ∈ s.data, isAsciiDigit c = true) →
      specValidYYYYMMDD s = false →
      get_friendly_date s = .error .invalidDate) := by
  constructor
  · rfl
  · intro s hlen hd hval
    have hdl : s.data.length = 8 := hlen
    have hs1 : pyslice s 0 4 = ⟨s.data.take 4⟩ := by
      unfold pyslice
      simp
    have hs2 : pyslice s 4 6 = ⟨(s.data.drop 4).take 2⟩ := by
      unfold pyslice
      rfl
    have hs3 : pyslice s 6 8 = ⟨s.data.drop 6⟩ := by
      unfold pyslice
      have htk : (s.data.drop 6).take (8 - 6) = s.data.drop 6 := by
        apply List.take_of_length_le
        rw [List.length_drop, hdl]
      rw [htk]
    have hd1 : ∀ c ∈ s.data.take 4, isAsciiDigit c = true :=
      fun c hc => hd c (List.take_subset 4 s.data hc)
    have hd2 : ∀ c ∈ (s.data.drop 4).take 2, isAsciiDigit c = true :=
      fun c hc => hd c (List.drop_subset 4 s.data (List.take_subset 2 _ hc))
    have hd3 : ∀ c ∈ s.data.drop 6, isAsciiDigit c = true :=
      fun c hc => hd c (List.drop_subset 6 s.data hc)
    have hne1 : s.data.take 4 ≠ [] := by
      have h4 : (s.data.take 4).length = 4 := by simp [hdl]
      intro hcon
      rw [hcon] at h4
      simp at h4
    have hne2 : (s.data.drop 4).take 2 ≠ [] := by
      have h2 : ((s.data.drop 4).take 2).length = 2 := by simp [hdl]
      intro hcon
      rw [hcon] at h2
      simp at h2
    have hne3 : s.data.drop 6 ≠ [] := by
      have h2 : (s.data.drop 6).length = 2 := by simp [hdl]
      intro hcon
      rw [hcon] at h2
      simp at h2
    have hp1 : pyInt (pyslice s 0 4) = .ok ((digitsVal (s.data.take 4) : Nat) : Int) := by
      rw [hs1]
      exact pyInt_digits _ hne1 hd1
    have hp2 : pyInt (pyslice s 4 6) =
        .ok ((digitsVal ((s.data.drop 4).take 2) : Nat) : Int) := by
      rw [hs2]
      exact pyInt_digits _ hne2 hd2
    have hp3 : pyInt (pyslice s 6 8) = .ok ((digitsVal (s.data.drop 6) : Nat) : Int) := by
      rw [hs3]
      exact pyInt_digits _ hne3 hd3
    unfold get_friendly_date
    rw [hp1, exbind_ok, hp2, exbind_ok, hp3, exbind_ok]
    unfold specValidYYYYMMDD at hval
    have hlen2 : decide (s.length = 8) = true := by simp [hlen]
    have hall : s.data.all isAsciiDigit = true := by
      rw [List.all_eq_true]
      exact fun x hx => hd x hx
    rw [hlen2, hall] at hval
    simp only [Bool.true_and] at hval
    rw [hval, Bool.and_false]
    rfl

/-- C7 counterexample: the 8-character input 2021+103 is not a valid
all-digit calendar date, yet int parsing accepts the signed field +1, so
get_friendly_date returns 3 January 2021 instead of raising. -/
theorem C7_counterexample :
    get_friendly_date "2021+103" = .ok "3 January 2021" ∧
    specValidYYYYMMDD "2021+103" = false := by
  exact ⟨by rfl, by rfl⟩

/-- Witness for C7: February 30 is rejected. -/
theorem C7_friendly_date_witness :
    get_friendly_date "20210230" = .error .invalidDate :=
  C7_friendly_date.2 "20210230" (by rfl) (by decide) (by rfl)
